import Mathlib

/-
Verification of the benchmark regression checker
(scripts/check-performance-regression.py).

The script is embedded shallowly:

* Python `str` is Lean `String`; the string operations the script uses
  (`str.split(sep)`, `str.split(sep, 1)`, `sep.join(...)`, `x in s`)
  are reimplemented below on `String.data` with structural (fuel-based)
  recursion so that every definition evaluates by kernel reduction.
* A JSON number is modelled as `ℚ` (exact arithmetic).
* A Python `dict` built by repeated `d[k] = v` insertion is modelled as an
  association list with Python's insertion-order/overwrite semantics
  (`dictInsert`).
* Fallible code is modelled with `Except PyErr`; an uncaught Python
  exception is an `Except.error` that propagates outwards.
* A benchmark entry (one element of the top-level "Benchmarks" list,
  schema in spec §6) is the structure `Benchmark`: `.get("Method")` is the
  `method` field, `.get("Parameters")` the `parameters` field, and
  `.get("Statistics", {}).get("P95")` is flattened into the `p95` field
  (absent `Statistics` and absent `P95` are observationally identical in
  the script).  Fields, when present, carry the schema types of spec §6.
-/

namespace PerfCheck

/-- Tests whether `p` is a leading segment of `s` (Python `s.startswith`,
used only to locate separator occurrences while splitting). -/
def beginsWith : List Char → List Char → Bool
  | [], _ => true
  | _ :: _, [] => false
  | p :: ps, c :: cs => p == c && beginsWith ps cs

/-- Core of Python `str.split(sep)` for a non-empty separator `sep`:
scan left to right, cut at each leftmost occurrence of `sep`.  `fuel` is
only a structural-recursion bound; it is always called with
`fuel = s.length`, which suffices because every step consumes at least one
character of `s`. -/
def strSplitFuel (sep : List Char) : Nat → List Char → List Char → List (List Char)
  | 0, s, acc => [acc.reverse ++ s]
  | fuel + 1, s, acc =>
    match s with
    | [] => [acc.reverse]
    | c :: rest =>
      if beginsWith sep (c :: rest) then
        acc.reverse :: strSplitFuel sep fuel ((c :: rest).drop sep.length) []
      else
        strSplitFuel sep fuel rest (c :: acc)

/-- Python `s.split(sep)` for non-empty `sep` (e.g. `", "` and `"="` in the
script); `"".split(sep) == [""]`. -/
def pySplit (s sep : String) : List String :=
  (strSplitFuel sep.data s.data.length s.data []).map String.mk

/-- Python `sep.join(pieces)` on character lists. -/
def joinL (sep : List Char) : List (List Char) → List Char
  | [] => []
  | [x] => x
  | x :: y :: xs => x ++ sep ++ joinL sep (y :: xs)

/-- Python `sep.join(pieces)`. -/
def pyJoin (sep : String) (pieces : List String) : String :=
  String.mk (joinL sep.data (pieces.map String.data))

/-- One benchmark entry of either document (spec §6 schema); `none` models
an absent key. -/
structure Benchmark where
  method : Option String
  parameters : Option String
  p95 : Option ℚ
deriving DecidableEq

/-- Python exceptions that the script can raise (all uncaught). -/
inductive PyErr where
  | parseError
  | attributeError
  | typeError
  | zeroDivisionError
deriving DecidableEq

/-- Python `d[k] = v` on an insertion-ordered dict represented as an
association list: overwriting an existing key keeps its original position,
a new key is appended at the end. -/
def dictInsert (d : List (String × String)) (k v : String) : List (String × String) :=
  if d.any (fun p => p.1 == k) then
    d.map (fun p => if p.1 = k then (k, v) else p)
  else
    d ++ [(k, v)]

/-- Python `"=" in pair` (the separator is a single character). -/
def hasEq (pair : String) : Bool :=
  pair.data.contains '='

/-- First component of Python `pair.split("=", 1)`: the characters before
the first `'='`. -/
def eqKey (pair : String) : String :=
  String.mk (pair.data.takeWhile (fun c => c != '='))

/-- Second component of Python `pair.split("=", 1)`: everything after the
first `'='`. -/
def eqVal (pair : String) : String :=
  String.mk ((pair.data.dropWhile (fun c => c != '=')).tail)

/-- One iteration of the `for pair in param_str.split(", ")` loop of
`extract_params` (lines 72-75). -/
def paramStep (params : List (String × String)) (pair : String) : List (String × String) :=
  if hasEq pair then dictInsert params (eqKey pair) (eqVal pair) else params

/-- String-level body of `extract_params` (lines 67-76): split the raw
`Parameters` string on `", "`, keep the pairs containing `"="`, split each
at the first `"="`, and accumulate into a dict. -/
def parseParamStr (param_str : String) : List (String × String) :=
  if param_str = "" then []
  else (pySplit param_str ", ").foldl paramStep []

/-- Python `extract_params` (lines 65-76): parameters of a benchmark entry,
from its raw `Parameters` string (absent `Parameters` defaults to `""`). -/
def extract_params (benchmark : Benchmark) : List (String × String) :=
  parseParamStr (benchmark.parameters.getD "")

/-- The dict built by the list-comprehension double rebind at lines 48-53
of `find_baseline` (`p.split("=")[0]` / `p.split("=")[1]`, i.e. an unbounded
split, unlike `extract_params`); the result is never read. -/
def deadParamMap (s : String) : List (String × String) :=
  (pySplit s ", ").foldl
    (fun acc p =>
      if hasEq p then
        let parts := pySplit p "="
        dictInsert acc (parts.headD "") (parts[1]?.getD "")
      else acc)
    []

/-- Python `", ".join(f"{k}={v}" for k, v in params.items())` (line 57). -/
def joinParams (params : List (String × String)) : String :=
  pyJoin ", " (params.map (fun kv => kv.1 ++ "=" ++ kv.2))

/-- Python `find_baseline` (lines 41-62): first entry of the baseline list
whose `Method` equals `benchmark_name` and whose raw `Parameters` string
equals the re-joined current parameters.  (`baseline_data` is the
document's "Benchmarks" list, cf. `pyIterBenchmarks`.)  The `baseline_params`
dict is built exactly as in the source and then never used. -/
def find_baseline (baseline_data : List Benchmark) (benchmark_name : String)
    (params : List (String × String)) : Option Benchmark :=
  match baseline_data with
  | [] => none
  | benchmark :: rest =>
    if benchmark.method ≠ some benchmark_name then
      find_baseline rest benchmark_name params
    else
      let baseline_params := deadParamMap (benchmark.parameters.getD "")
      let baseline_param_str := benchmark.parameters.getD ""
      let current_param_str := joinParams params
      if baseline_param_str = current_param_str then some benchmark
      else find_baseline rest benchmark_name params

/-- Variant of `find_baseline` with the dead `baseline_params` construction
omitted (spec §9 suggests this simplification). -/
def find_baseline_simple (baseline_data : List Benchmark) (benchmark_name : String)
    (params : List (String × String)) : Option Benchmark :=
  match baseline_data with
  | [] => none
  | benchmark :: rest =>
    if benchmark.method ≠ some benchmark_name then
      find_baseline_simple rest benchmark_name params
    else
      if benchmark.parameters.getD "" = joinParams params then some benchmark
      else find_baseline_simple rest benchmark_name params

/-- Python `get_p95` (lines 79-82). -/
def get_p95 (benchmark : Benchmark) : Option ℚ :=
  benchmark.p95

/-- Classification of one current entry (spec §3 `ComparisonOutcome`). -/
inductive Outcome where
  | regression (name : String) (baseline_p95 current_p95 change_pct : ℚ)
  | improvement (name : String) (baseline_p95 current_p95 change_pct : ℚ)
  | unchanged (name : String) (baseline_p95 current_p95 change_pct : ℚ)
  | noBaseline (name : String)
  | missingData (name : String)
deriving DecidableEq

/-- True exactly for `Outcome.regression`. -/
def Outcome.isRegression : Outcome → Bool
  | .regression _ _ _ _ => true
  | _ => false

/-- The `change_pct` carried by an outcome, when it has one. -/
def Outcome.changePct : Outcome → Option ℚ
  | .regression _ _ _ p => some p
  | .improvement _ _ _ p => some p
  | .unchanged _ _ _ p => some p
  | .noBaseline _ => none
  | .missingData _ => none

/-- Python `f"{name}({benchmark.get('Parameters', '')})"` (line 107). -/
def paramKey (benchmark : Benchmark) : String :=
  benchmark.method.getD "Unknown" ++ "(" ++ benchmark.parameters.getD "" ++ ")"

/-- Body of the `for benchmark in current.get("Benchmarks", [])` loop of
`check_regressions` (lines 104-148) for one current entry.  Line 121
divides by `baseline_p95` unconditionally; in Python a zero denominator
raises an uncaught `ZeroDivisionError`, modelled as `Except.error`. -/
def processEntry (baseline : List Benchmark) (threshold_pct : ℚ)
    (benchmark : Benchmark) : Except PyErr Outcome :=
  let name := benchmark.method.getD "Unknown"
  let params := extract_params benchmark
  let param_key := paramKey benchmark
  match find_baseline baseline name params with
  | none => .ok (.noBaseline param_key)
  | some baseline_entry =>
    match get_p95 baseline_entry, get_p95 benchmark with
    | some baseline_p95, some current_p95 =>
      if baseline_p95 = 0 then .error .zeroDivisionError
      else
        let change_pct := (current_p95 - baseline_p95) / baseline_p95 * 100
        if change_pct > threshold_pct then
          .ok (.regression param_key baseline_p95 current_p95 change_pct)
        else if change_pct < -threshold_pct then
          .ok (.improvement param_key baseline_p95 current_p95 change_pct)
        else
          .ok (.unchanged param_key baseline_p95 current_p95 change_pct)
    | _, _ => .ok (.missingData param_key)

/-- The comparison pass of `check_regressions`: classify every current
entry in document order; an uncaught exception in any entry aborts the
pass (no later entry is processed). -/
def runComparison (baseline current : List Benchmark) (threshold_pct : ℚ) :
    Except PyErr (List Outcome) :=
  match current with
  | [] => .ok []
  | b :: rest =>
    match processEntry baseline threshold_pct b with
    | .error e => .error e
    | .ok o =>
      match runComparison baseline rest threshold_pct with
      | .error e => .error e
      | .ok os => .ok (o :: os)

/-- Return value of `check_regressions` (lines 163-171): 1 iff the
accumulated `regressions` list is non-empty, else 0. -/
def exitOfOutcomes (outcomes : List Outcome) : Nat :=
  if outcomes.any Outcome.isRegression then 1 else 0

/-- Python `check_regressions` on two already-parsed documents (their
"Benchmarks" lists): the classification pass followed by the exit-code
computation. -/
def check_regressions (baseline current : List Benchmark) (threshold_pct : ℚ) :
    Except PyErr Nat :=
  (runComparison baseline current threshold_pct).map exitOfOutcomes

/-- Exit status of the whole process once both files exist and both parsed
(`main`, lines 205-206): `sys.exit(check_regressions(...))`, and a Python
process terminated by an uncaught exception exits with status 1. -/
def processExit (baseline current : List Benchmark) (threshold_pct : ℚ) : Nat :=
  match check_regressions baseline current threshold_pct with
  | .ok code => code
  | .error _ => 1

/-- In-memory form of a parsed JSON document (what `json.load` returns on
success). -/
inductive Json where
  | null
  | bool (b : Bool)
  | num (q : ℚ)
  | str (s : String)
  | arr (elems : List Json)
  | obj (fields : List (String × Json))

/-- Python `dict.get(k)` on a JSON object's field list (duplicate keys have
already been collapsed by `json.load`, so plain first-match lookup). -/
def jlookup : List (String × Json) → String → Option Json
  | [], _ => none
  | (k, v) :: rest, key => if k = key then some v else jlookup rest key

/-- Python `load_json` (lines 35-38).  The text-level outcome of
`json.load` is the input: `none` stands for a document that is not
well-formed JSON, on which `json.load` raises `JSONDecodeError`
(the spec's `ParseError`), uncaught; `some j` stands for well-formed text
parsed to `j`. -/
def load_json (doc : Option Json) : Except PyErr Json :=
  match doc with
  | none => .error .parseError
  | some j => .ok j

/-- Python `data.get("Benchmarks", [])` followed by `for benchmark in ...`
(lines 43 and 104): on a non-object document `.get` raises
`AttributeError`; a missing "Benchmarks" key defaults to the empty list;
iterating a non-iterable value raises `TypeError` (a dict iterates its
keys, a string its characters). -/
def pyIterBenchmarks (data : Json) : Except PyErr (List Json) :=
  match data with
  | .obj fields =>
    match jlookup fields "Benchmarks" with
    | none => .ok []
    | some (.arr elems) => .ok elems
    | some (.obj fs) => .ok (fs.map (fun kv => .str kv.1))
    | some (.str s) => .ok (s.data.map (fun c => .str (String.mk [c])))
    | some _ => .error .typeError
  | _ => .error .attributeError

/-- Conversion of one element of the "Benchmarks" list to the typed entry
used by the comparison pass.  A non-object element raises `AttributeError`
at its first `.get` call; per the spec §6 schema, a present `Method` or
`Parameters` is a string and a present `Statistics.P95` is a number, and a
field of any other shape is treated as absent. -/
def decodeBenchmark (j : Json) : Except PyErr Benchmark :=
  match j with
  | .obj fields =>
    .ok
      { method :=
          match jlookup fields "Method" with
          | some (.str s) => some s
          | _ => none
        parameters :=
          match jlookup fields "Parameters" with
          | some (.str s) => some s
          | _ => none
        p95 :=
          match jlookup fields "Statistics" with
          | some (.obj stats) =>
            match jlookup stats "P95" with
            | some (.num q) => some q
            | _ => none
          | _ => none }
  | _ => .error .attributeError

/-- The run from the two text-level documents onwards (`check_regressions`
lines 97-171 plus the exit convention of `processExit`): load both
documents, extract and decode their "Benchmarks" lists, run the comparison
pass, and return the exit code of the completed run; any uncaught
exception propagates. -/
def runFromDocs (baseline_doc current_doc : Option Json) (threshold_pct : ℚ) :
    Except PyErr Nat := do
  let baseline ← load_json baseline_doc
  let current ← load_json current_doc
  let baseline_entries ← pyIterBenchmarks baseline
  let current_entries ← pyIterBenchmarks current
  let baseline_bs ← baseline_entries.mapM decodeBenchmark
  let current_bs ← current_entries.mapM decodeBenchmark
  check_regressions baseline_bs current_bs threshold_pct

/-- The separator `", "` of the parameter encoding, as characters. -/
def sepCS : List Char := [',', ' ']

/-- A leading segment stays a leading segment after appending. -/
theorem beginsWith_mono {p x : List Char} (y : List Char)
    (h : beginsWith p x = true) : beginsWith p (x ++ y) = true := by
  induction p generalizing x with
  | nil => rfl
  | cons a ps ih =>
    cases x with
    | nil => simp [beginsWith] at h
    | cons c cs =>
      simp only [beginsWith, Bool.and_eq_true, beq_iff_eq] at h
      simp only [List.cons_append, beginsWith, Bool.and_eq_true, beq_iff_eq]
      exact ⟨h.1, ih h.2⟩

/-- A list with a leading segment `p` is `p` followed by the rest. -/
theorem beginsWith_eq_append {p s : List Char}
    (h : beginsWith p s = true) : s = p ++ s.drop p.length := by
  induction p generalizing s with
  | nil => simp
  | cons a ps ih =>
    cases s with
    | nil => simp [beginsWith] at h
    | cons c cs =>
      simp only [beginsWith, Bool.and_eq_true, beq_iff_eq] at h
      simpa [h.1] using ih h.2

/-- No string with a nonempty leading segment is empty. -/
theorem beginsWith_nil_eq_false {a : Char} {ps : List Char} :
    beginsWith (a :: ps) [] = false := rfl

/-- The string `s` has no occurrence of `sep` at any position. -/
def noOccur (sep s : List Char) : Prop :=
  ∀ i, beginsWith sep (s.drop i) = false

theorem noOccur_nil {a : Char} {ps : List Char} : noOccur (a :: ps) [] := by
  intro i
  simp [beginsWith_nil_eq_false]

theorem noOccur_cons {sep : List Char} {c : Char} {s : List Char} :
    noOccur sep (c :: s) ↔ beginsWith sep (c :: s) = false ∧ noOccur sep s := by
  constructor
  · exact fun h => ⟨h 0, fun i => h (i + 1)⟩
  · rintro ⟨h0, h⟩ i
    cases i with
    | zero => exact h0
    | succ j => exact h j

/-- Occurrence-freedom passes to a left part of an append. -/
theorem noOccur_of_append_left {sep a b : List Char}
    (h : noOccur sep (a ++ b)) : noOccur sep a := by
  intro i
  by_cases hi : i ≤ a.length
  · have hdrop : (a ++ b).drop i = a.drop i ++ b := List.drop_append_of_le_length hi
    by_contra hbw
    have hbw' : beginsWith sep (a.drop i) = true := by
      cases hb : beginsWith sep (a.drop i)
      · exact absurd hb hbw
      · rfl
    have := beginsWith_mono b hbw'
    rw [← hdrop] at this
    simp [h i] at this
  · have : a.drop i = [] := List.drop_eq_nil_of_le (by omega)
    rw [this]
    cases sep with
    | nil => simpa [this] using h i
    | cons x xs => exact beginsWith_nil_eq_false

/-- Occurrence-freedom passes to a right part of an append. -/
theorem noOccur_of_append_right {sep : List Char} (a : List Char) {b : List Char}
    (h : noOccur sep (a ++ b)) : noOccur sep b := by
  intro i
  have h2 := h (a.length + i)
  have h1 : a.drop (a.length + i) = [] := List.drop_eq_nil_of_le (by omega)
  rw [List.drop_append_eq_append_drop, h1] at h2
  simpa [Nat.add_sub_cancel_left] using h2

theorem joinL_cons {sep x : List Char} {l : List (List Char)} (h : l ≠ []) :
    joinL sep (x :: l) = x ++ sep ++ joinL sep l := by
  cases l with
  | nil => exact absurd rfl h
  | cons y ys => rfl

/-- Splitting never produces the empty list of tokens. -/
theorem strSplitFuel_ne_nil (sep : List Char) :
    ∀ (fuel : Nat) (s acc : List Char), strSplitFuel sep fuel s acc ≠ [] := by
  intro fuel
  induction fuel with
  | zero => intro s acc; simp [strSplitFuel]
  | succ f ih =>
    intro s acc
    cases s with
    | nil => simp [strSplitFuel]
    | cons c rest =>
      simp only [strSplitFuel]
      split
      · simp
      · exact ih rest (c :: acc)

/-- Joining the pieces of a split restores the original string (for any
fuel). -/
theorem joinL_strSplitFuel (sep : List Char) :
    ∀ (fuel : Nat) (s acc : List Char),
      joinL sep (strSplitFuel sep fuel s acc) = acc.reverse ++ s := by
  intro fuel
  induction fuel with
  | zero => intro s acc; simp [strSplitFuel, joinL]
  | succ f ih =>
    intro s acc
    cases s with
    | nil => simp [strSplitFuel, joinL]
    | cons c rest =>
      simp only [strSplitFuel]
      split
      · rename_i hbw
        rw [joinL_cons (strSplitFuel_ne_nil sep f _ _), ih]
        simp only [List.reverse_nil, List.nil_append, List.append_assoc]
        congr 1
        exact (beginsWith_eq_append hbw).symm
      · rw [ih]
        simp

/-- On an occurrence-free string the split produces a single token. -/
theorem strSplitFuel_noOccur (sep : List Char) :
    ∀ (fuel : Nat) (s acc : List Char), noOccur sep s →
      strSplitFuel sep fuel s acc = [acc.reverse ++ s] := by
  intro fuel
  induction fuel with
  | zero => intro s acc _; rfl
  | succ f ih =>
    intro s acc h
    cases s with
    | nil => simp [strSplitFuel]
    | cons c rest =>
      simp only [strSplitFuel]
      rw [if_neg (by simp [(noOccur_cons.mp h).1]), ih rest (c :: acc) (noOccur_cons.mp h).2]
      simp

/-- Changing the fuel does not change the split, as long as both fuels
cover the length of the string (`sep` nonempty). -/
theorem strSplitFuel_fuel_irrel {sep : List Char} (hsep : sep ≠ []) :
    ∀ (fuel fuel' : Nat) (s acc : List Char),
      s.length ≤ fuel → s.length ≤ fuel' →
      strSplitFuel sep fuel s acc = strSplitFuel sep fuel' s acc := by
  intro fuel
  induction fuel with
  | zero =>
    intro fuel' s acc h h'
    have hs : s = [] := List.eq_nil_of_length_eq_zero (by omega)
    subst hs
    cases fuel' <;> simp [strSplitFuel]
  | succ f ih =>
    intro fuel' s acc h h'
    cases s with
    | nil => cases fuel' <;> simp [strSplitFuel]
    | cons c rest =>
      cases fuel' with
      | zero => simp at h'
      | succ f' =>
        have hseplen : 1 ≤ sep.length := by
          cases sep with
          | nil => exact absurd rfl hsep
          | cons x xs => simp
        have hlen : rest.length + 1 ≤ f + 1 := by simpa using h
        have hlen' : rest.length + 1 ≤ f' + 1 := by simpa using h'
        simp only [strSplitFuel]
        split
        · rw [ih f' ((c :: rest).drop sep.length) []
            (by simp only [List.length_drop, List.length_cons]; omega)
            (by simp only [List.length_drop, List.length_cons]; omega)]
        · rw [ih f' rest (c :: acc) (by omega) (by omega)]

theorem beginsWith_sepCS_iff {z : List Char} :
    beginsWith sepCS z = true ↔ ∃ z', z = ',' :: ' ' :: z' := by
  cases z with
  | nil => simp [sepCS, beginsWith]
  | cons c cs =>
    cases cs with
    | nil => simp [sepCS, beginsWith]
    | cons d ds =>
      simp only [sepCS, beginsWith, Bool.and_eq_true, beq_iff_eq]
      constructor
      · rintro ⟨h1, h2, -⟩
        exact ⟨ds, by rw [← h1, ← h2]⟩
      · rintro ⟨z', hz⟩
        injection hz with h1 hz'
        injection hz' with h2 _
        exact ⟨h1.symm, h2.symm, trivial⟩

/-- Extending a string that `", "` does not lead cannot create a leading
occurrence, unless the string was empty and the extension starts with a
space. -/
theorem beginsWith_sepCS_extend {c : Char} {a ext : List Char}
    (h : beginsWith sepCS (c :: a) = false)
    (hext : a = [] → ext.head? ≠ some ' ') :
    beginsWith sepCS (c :: (a ++ ext)) = false := by
  cases hbw : beginsWith sepCS (c :: (a ++ ext)) with
  | false => rfl
  | true =>
    obtain ⟨z', hz⟩ := beginsWith_sepCS_iff.mp hbw
    injection hz with h1 hz'
    cases a with
    | nil =>
      exact absurd (by rw [List.nil_append] at hz'; rw [hz']; rfl) (hext rfl)
    | cons d a' =>
      rw [List.cons_append] at hz'
      injection hz' with h2 _
      rw [h1, h2] at h
      simp [sepCS, beginsWith] at h

/-- If no occurrence of `sep` begins at a position inside `x`, then `x` is
occurrence-free, even if the positions were checked on `x ++ y`. -/
theorem noOccur_of_append_positions {sep x : List Char} (y : List Char) (hsep : sep ≠ [])
    (h : ∀ i, i < x.length → beginsWith sep ((x ++ y).drop i) = false) :
    noOccur sep x := by
  intro i
  by_cases hi : i < x.length
  · specialize h i hi
    rw [List.drop_append_of_le_length (le_of_lt hi)] at h
    cases hbw : beginsWith sep (x.drop i) with
    | false => rfl
    | true => rw [beginsWith_mono y hbw] at h; exact h
  · rw [List.drop_eq_nil_of_le (by omega)]
    cases sep with
    | nil => exact absurd rfl hsep
    | cons a ps => exact beginsWith_nil_eq_false

/-- Splitting a string of the form `t ++ ", " ++ r` at an occurrence-free
`t` emits `t` as the first token and continues on `r`. -/
theorem strSplitFuel_boundary :
    ∀ (t : List Char), noOccur sepCS t →
      ∀ (fuel : Nat) (r acc : List Char), (t ++ sepCS ++ r).length ≤ fuel →
        strSplitFuel sepCS fuel (t ++ sepCS ++ r) acc
          = (acc.reverse ++ t) :: strSplitFuel sepCS r.length r [] := by
  intro t
  induction t with
  | nil =>
    intro _ fuel r acc hfuel
    simp only [List.nil_append] at hfuel ⊢
    cases fuel with
    | zero => simp [sepCS] at hfuel
    | succ f =>
      have hr : r.length ≤ f := by
        simp only [List.length_append, sepCS, List.length_cons] at hfuel
        simp at hfuel
        omega
      show strSplitFuel sepCS (f + 1) (',' :: ' ' :: r) acc = _
      simp only [strSplitFuel]
      rw [if_pos (by simp [sepCS, beginsWith])]
      have hdrop : ((',' :: ' ' :: r).drop sepCS.length) = r := rfl
      rw [hdrop, @strSplitFuel_fuel_irrel sepCS (by simp [sepCS]) f r.length r [] hr le_rfl]
      simp
  | cons a t' ih =>
    intro hno fuel r acc hfuel
    cases fuel with
    | zero => simp at hfuel
    | succ f =>
      have hno' := noOccur_cons.mp hno
      show strSplitFuel sepCS (f + 1) (a :: (t' ++ sepCS ++ r)) acc = _
      simp only [strSplitFuel]
      rw [if_neg (by
        rw [show t' ++ sepCS ++ r = t' ++ (sepCS ++ r) from List.append_assoc t' sepCS r]
        rw [beginsWith_sepCS_extend hno'.1 (fun _ => by simp [sepCS])]
        simp)]
      rw [ih hno'.2 f r (a :: acc)
        (by simp only [List.length_append, List.length_cons] at hfuel ⊢; omega)]
      simp

/-- Character-level split on `", "` with its canonical fuel. -/
def splitCS (s : List Char) : List (List Char) :=
  strSplitFuel sepCS s.length s []

/-- Splitting the `", "`-join of occurrence-free tokens restores exactly
those tokens. -/
theorem splitCS_joinL (ts : List (List Char)) (hne : ts ≠ [])
    (hno : ∀ t ∈ ts, noOccur sepCS t) :
    splitCS (joinL sepCS ts) = ts := by
  induction ts with
  | nil => exact absurd rfl hne
  | cons x ys ih =>
    cases ys with
    | nil =>
      show strSplitFuel sepCS _ x [] = [x]
      rw [strSplitFuel_noOccur sepCS _ x [] (hno x (by simp))]
      simp
    | cons y ts' =>
      have hjoin : joinL sepCS (x :: y :: ts') = x ++ sepCS ++ joinL sepCS (y :: ts') :=
        joinL_cons (by simp)
      show strSplitFuel sepCS (joinL sepCS (x :: y :: ts')).length (joinL sepCS (x :: y :: ts')) [] = _
      rw [hjoin, strSplitFuel_boundary x (hno x (by simp)) _ _ [] le_rfl]
      rw [show strSplitFuel sepCS (joinL sepCS (y :: ts')).length (joinL sepCS (y :: ts')) []
            = splitCS (joinL sepCS (y :: ts')) from rfl]
      rw [ih (by simp) (fun t ht => hno t (List.mem_cons_of_mem x ht))]
      simp

/-- Every token produced by the split is occurrence-free. -/
theorem strSplitFuel_tokens_noOccur {sep : List Char} (hsep : sep ≠ []) :
    ∀ (fuel : Nat) (s acc : List Char), s.length ≤ fuel →
      (∀ i, i < acc.length → beginsWith sep ((acc.reverse ++ s).drop i) = false) →
      ∀ t ∈ strSplitFuel sep fuel s acc, noOccur sep t := by
  intro fuel
  induction fuel with
  | zero =>
    intro s acc hlen hinv t ht
    have hs : s = [] := List.eq_nil_of_length_eq_zero (by omega)
    subst hs
    simp only [strSplitFuel, List.append_nil, List.mem_singleton] at ht
    subst ht
    exact noOccur_of_append_positions [] hsep (by simpa using hinv)
  | succ f ih =>
    intro s acc hlen hinv t ht
    cases s with
    | nil =>
      simp only [strSplitFuel, List.mem_singleton] at ht
      subst ht
      exact noOccur_of_append_positions [] hsep (by simpa using hinv)
    | cons c rest =>
      have hseplen : 1 ≤ sep.length := by
        cases sep with
        | nil => exact absurd rfl hsep
        | cons x xs => simp
      simp only [strSplitFuel] at ht
      split at ht
      · rcases List.mem_cons.mp ht with h | h
        · subst h
          exact noOccur_of_append_positions (c :: rest) hsep
            (by simpa [List.length_reverse] using hinv)
        · exact ih _ []
            (by simp only [List.length_drop, List.length_cons] at *; omega)
            (by simp) t h
      · rename_i hbw
        refine ih rest (c :: acc)
          (by simp only [List.length_cons] at hlen; omega) ?_ t ht
        intro i hi
        have hlist : (c :: acc).reverse ++ rest = acc.reverse ++ (c :: rest) := by
          simp
        rw [hlist]
        rcases Nat.lt_or_ge i acc.length with hlt | hge
        · exact hinv i hlt
        · have hieq : i = acc.length := by simp only [List.length_cons] at hi; omega
          subst hieq
          rw [show acc.length = acc.reverse.length from (List.length_reverse acc).symm,
            List.drop_left]
          simpa using hbw

theorem beginsWith_sepCS_of_ne {c : Char} {z : List Char} (h : c ≠ ',') :
    beginsWith sepCS (c :: z) = false := by
  cases hbw : beginsWith sepCS (c :: z) with
  | false => rfl
  | true =>
    obtain ⟨z', hz⟩ := beginsWith_sepCS_iff.mp hbw
    injection hz with h1 _
    exact absurd h1 h

/-- Occurrence-freedom of `", "` is preserved by gluing two
occurrence-free strings with a `'='`. -/
theorem noOccur_append_eqmid {a b : List Char} (ha : noOccur sepCS a)
    (hb : noOccur sepCS b) : noOccur sepCS (a ++ '=' :: b) := by
  induction a with
  | nil =>
    rw [List.nil_append, noOccur_cons]
    exact ⟨beginsWith_sepCS_of_ne (by decide), hb⟩
  | cons c a' ih =>
    rw [List.cons_append, noOccur_cons]
    refine ⟨?_, ih (noOccur_cons.mp ha).2⟩
    exact beginsWith_sepCS_extend (noOccur_cons.mp ha).1 (fun h => by subst h; simp)

/-- Reassembling the two halves of Python `pair.split("=", 1)` around the
first `'='` restores the original characters. -/
theorem eq_rejoin : ∀ (td : List Char), '=' ∈ td →
    td.takeWhile (fun c => c != '=') ++ '=' :: (td.dropWhile (fun c => c != '=')).tail = td := by
  intro td h
  induction td with
  | nil => cases h
  | cons c rest ih =>
    by_cases hc : c = '='
    · subst hc
      simp [List.takeWhile_cons, List.dropWhile_cons]
    · have hne : (c != '=') = true := by simp [hc]
      have hmem : '=' ∈ rest := by
        rcases List.mem_cons.mp h with h1 | h1
        · exact absurd h1.symm hc
        · exact h1
      simp only [List.takeWhile_cons, List.dropWhile_cons, hne, if_true, List.cons_append]
      rw [ih hmem]

/-- `takeWhile` on `a ++ m :: b` stops exactly at `m` when all of `a`
satisfies the predicate and `m` does not. -/
theorem takeWhile_all_append (p : Char → Bool) (m : Char) :
    ∀ (a b : List Char), (∀ x ∈ a, p x = true) → p m = false →
      (a ++ m :: b).takeWhile p = a ∧ (a ++ m :: b).dropWhile p = m :: b := by
  intro a
  induction a with
  | nil =>
    intro b _ hm
    simp [List.takeWhile_cons, List.dropWhile_cons, hm]
  | cons c a' ih =>
    intro b hall hm
    have hc : p c = true := hall c (by simp)
    have := ih b (fun x hx => hall x (by simp [hx])) hm
    simp [List.takeWhile_cons, List.dropWhile_cons, hc, this.1, this.2]

theorem dictInsert_fresh {d : List (String × String)} {k v : String}
    (h : ∀ p ∈ d, p.1 ≠ k) : dictInsert d k v = d ++ [(k, v)] := by
  unfold dictInsert
  rw [if_neg]
  intro hany
  rw [List.any_eq_true] at hany
  obtain ⟨p, hp, hpk⟩ := hany
  exact h p hp (by simpa using hpk)

theorem mem_dictInsert {d : List (String × String)} {k v : String} {q : String × String}
    (hq : q ∈ dictInsert d k v) : q ∈ d ∨ q = (k, v) := by
  unfold dictInsert at hq
  split at hq
  · obtain ⟨p, hp, hpq⟩ := List.mem_map.mp hq
    by_cases hk : p.1 = k
    · right
      rw [if_pos hk] at hpq
      exact hpq.symm
    · left
      rw [if_neg hk] at hpq
      exact hpq ▸ hp
  · rcases List.mem_append.mp hq with h | h
    · exact Or.inl h
    · exact Or.inr (List.mem_singleton.mp h)

theorem dictInsert_keys (d : List (String × String)) (k v : String) :
    (dictInsert d k v).map Prod.fst
      = if d.any (fun p => p.1 == k) then d.map Prod.fst else d.map Prod.fst ++ [k] := by
  unfold dictInsert
  split
  · rw [List.map_map]
    apply List.map_congr_left
    intro p _
    by_cases h : p.1 = k <;> simp [h, Function.comp]
  · simp

theorem foldl_paramStep_keys_nodup :
    ∀ (tokens : List String) (acc : List (String × String)),
      (acc.map Prod.fst).Nodup → ((tokens.foldl paramStep acc).map Prod.fst).Nodup := by
  intro tokens
  induction tokens with
  | nil => intro acc h; exact h
  | cons t ts ih =>
    intro acc h
    rw [List.foldl_cons]
    apply ih
    unfold paramStep
    split
    · rw [dictInsert_keys]
      split
      · exact h
      · rename_i hany
        have hk : eqKey t ∉ acc.map Prod.fst := by
          intro hmem
          obtain ⟨p, hp, hpe⟩ := List.mem_map.mp hmem
          exact hany (List.any_eq_true.mpr ⟨p, hp, by simpa using hpe⟩)
        simp [List.nodup_append, h, hk]
    · exact h

theorem foldl_paramStep_inv (Pk Pv : String → Prop) :
    ∀ (tokens : List String) (acc : List (String × String)),
      (∀ t ∈ tokens, hasEq t = true → Pk (eqKey t) ∧ Pv (eqVal t)) →
      (∀ p ∈ acc, Pk p.1 ∧ Pv p.2) →
      ∀ p ∈ tokens.foldl paramStep acc, Pk p.1 ∧ Pv p.2 := by
  intro tokens
  induction tokens with
  | nil => intro acc _ hacc p hp; exact hacc p hp
  | cons t ts ih =>
    intro acc htok hacc p hp
    rw [List.foldl_cons] at hp
    refine ih _ (fun u hu he => htok u (by simp [hu]) he) ?_ p hp
    intro q hq
    unfold paramStep at hq
    split at hq
    · rcases mem_dictInsert hq with h | h
      · exact hacc q h
      · rw [h]
        exact htok t (by simp) (by assumption)
    · exact hacc q hq

/-- The key/value pairs of the tokens that contain a `"="`, in order, each
split at the first `"="`. -/
def pairsOf (tokens : List String) : List (String × String) :=
  (tokens.filter hasEq).map (fun t => (eqKey t, eqVal t))

theorem foldl_paramStep_append :
    ∀ (tokens : List String) (acc : List (String × String)),
      ((pairsOf tokens).map Prod.fst).Nodup →
      (∀ p ∈ acc, p.1 ∉ (pairsOf tokens).map Prod.fst) →
      tokens.foldl paramStep acc = acc ++ pairsOf tokens := by
  intro tokens
  induction tokens with
  | nil => intro acc _ _; simp [pairsOf]
  | cons t ts ih =>
    intro acc hnd hdisj
    rw [List.foldl_cons]
    by_cases ht : hasEq t
    · have hpairs : pairsOf (t :: ts) = (eqKey t, eqVal t) :: pairsOf ts := by
        simp [pairsOf, List.filter_cons, ht]
      rw [hpairs] at hnd hdisj
      have hndtail : ((pairsOf ts).map Prod.fst).Nodup := by
        simp only [List.map_cons] at hnd
        exact hnd.of_cons
      have hndhead : eqKey t ∉ (pairsOf ts).map Prod.fst := by
        simp only [List.map_cons] at hnd
        simpa using (List.nodup_cons.mp hnd).1
      have hstep : paramStep acc t = acc ++ [(eqKey t, eqVal t)] := by
        unfold paramStep
        rw [if_pos ht]
        exact dictInsert_fresh (fun p hp => by
          have := hdisj p hp
          simp only [List.map_cons, List.mem_cons] at this
          tauto)
      rw [hstep, ih (acc ++ [(eqKey t, eqVal t)]) hndtail ?_]
      · rw [hpairs]
        simp
      · intro p hp
        rcases List.mem_append.mp hp with h | h
        · have := hdisj p h
          simp only [List.map_cons, List.mem_cons] at this
          tauto
        · rw [List.mem_singleton.mp h]
          simpa using hndhead
    · have hpairs : pairsOf (t :: ts) = pairsOf ts := by
        simp [pairsOf, List.filter_cons, ht]
      rw [hpairs] at hnd hdisj
      have hstep : paramStep acc t = acc := by
        unfold paramStep
        rw [if_neg ht]
      rw [hstep, ih acc hnd hdisj, hpairs]

theorem parseParamStr_eq_pairsOf {s : String} (hs : s ≠ "")
    (hnd : ((pairsOf (pySplit s ", ")).map Prod.fst).Nodup) :
    parseParamStr s = pairsOf (pySplit s ", ") := by
  unfold parseParamStr
  rw [if_neg hs]
  simpa using foldl_paramStep_append (pySplit s ", ") [] hnd (by simp)

theorem parseParamStr_keys_nodup (s : String) :
    ((parseParamStr s).map Prod.fst).Nodup := by
  unfold parseParamStr
  split
  · simp
  · exact foldl_paramStep_keys_nodup _ [] (by simp)

/-- Every token of the `", "`-split of a raw parameter string is
occurrence-free. -/
theorem pySplit_comma_tokens_noOccur (s : String) :
    ∀ t ∈ pySplit s ", ", noOccur sepCS t.data := by
  intro t ht
  unfold pySplit at ht
  obtain ⟨td, htd, hmk⟩ := List.mem_map.mp ht
  have hdata : t.data = td := by rw [← hmk]
  rw [hdata]
  have hsepdata : (", " : String).data = sepCS := rfl
  rw [hsepdata] at htd
  exact strSplitFuel_tokens_noOccur (by simp [sepCS]) s.data.length s.data []
    le_rfl (by simp) td htd

/-- Shape of every pair produced by the parameter parse: the key and the
value are occurrence-free for `", "`, and the key contains no `'='`. -/
theorem parseParamStr_pair_shape (s : String) :
    ∀ p ∈ parseParamStr s,
      (noOccur sepCS p.1.data ∧ ∀ c ∈ p.1.data, c ≠ '=') ∧ noOccur sepCS p.2.data := by
  unfold parseParamStr
  split
  · simp
  · refine foldl_paramStep_inv
      (fun k => noOccur sepCS k.data ∧ ∀ c ∈ k.data, c ≠ '=')
      (fun v => noOccur sepCS v.data)
      (pySplit s ", ") [] ?_ (by simp)
    intro t ht _
    have hno : noOccur sepCS t.data := pySplit_comma_tokens_noOccur s t ht
    have htdecomp : t.data.takeWhile (fun c => c != '=') ++ t.data.dropWhile (fun c => c != '=') = t.data :=
      List.takeWhile_append_dropWhile _ _
    refine ⟨⟨?_, ?_⟩, ?_⟩
    · exact noOccur_of_append_left (htdecomp.symm ▸ hno)
    · intro c hc
      have := List.mem_takeWhile_imp hc
      simpa using this
    · have hdp : noOccur sepCS (t.data.dropWhile (fun c => c != '=')) :=
        noOccur_of_append_right (t.data.takeWhile (fun c => c != '=')) (htdecomp.symm ▸ hno)
      show noOccur sepCS (t.data.dropWhile (fun c => c != '=')).tail
      cases hdw : t.data.dropWhile (fun c => c != '=') with
      | nil => simpa [hdw] using noOccur_nil
      | cons hd tl =>
        rw [hdw] at hdp
        simpa using (noOccur_cons.mp hdp).2

theorem pySplit_eq_splitCS (s : String) :
    pySplit s ", " = (splitCS s.data).map String.mk := rfl

/-- Characters of the re-joined parameter string. -/
theorem joinParams_data (params : List (String × String)) :
    (joinParams params).data
      = joinL sepCS (params.map (fun kv => kv.1.data ++ '=' :: kv.2.data)) := by
  unfold joinParams pyJoin
  show joinL (", " : String).data _ = _
  rw [show (", " : String).data = sepCS from rfl, List.map_map]
  congr 1
  apply List.map_congr_left
  intro kv _
  show (kv.1 ++ "=" ++ kv.2).data = kv.1.data ++ '=' :: kv.2.data
  rw [String.data_append, String.data_append]
  rw [show ("=" : String).data = ['='] from rfl]
  simp

/-- Re-serialization is the identity on a raw parameter string whose
tokens all contain `"="` and whose keys are pairwise distinct. -/
theorem joinParams_parseParamStr_id (s : String)
    (hall : ∀ t ∈ pySplit s ", ", hasEq t = true)
    (hnd : ((pairsOf (pySplit s ", ")).map Prod.fst).Nodup) :
    joinParams (parseParamStr s) = s := by
  have hs : s ≠ "" := by
    intro h
    subst h
    have h1 : ("" : String) ∈ pySplit "" ", " := by decide
    exact absurd (hall _ h1) (by decide)
  rw [parseParamStr_eq_pairsOf hs hnd]
  apply String.ext
  rw [joinParams_data]
  unfold pairsOf
  rw [List.filter_eq_self.mpr hall, List.map_map]
  have hmap : (pySplit s ", ").map
      ((fun kv : String × String => kv.1.data ++ '=' :: kv.2.data)
        ∘ (fun t => (eqKey t, eqVal t)))
      = (pySplit s ", ").map String.data := by
    apply List.map_congr_left
    intro t ht
    show (eqKey t).data ++ '=' :: (eqVal t).data = t.data
    have hin : '=' ∈ t.data := by
      have h1 := hall t ht
      exact List.elem_iff.mp h1
    exact eq_rejoin t.data hin
  rw [hmap, pySplit_eq_splitCS, List.map_map]
  have hid : (splitCS s.data).map (String.data ∘ String.mk) = splitCS s.data := by
    have hcomp : (String.data ∘ String.mk) = id := rfl
    rw [hcomp, List.map_id]
  rw [hid]
  show joinL sepCS (strSplitFuel sepCS s.data.length s.data []) = s.data
  rw [joinL_strSplitFuel]
  simp

/-- Re-serialization always produces the join of the kept (pruned) tokens. -/
theorem joinParams_pairsOf (tokens : List String) :
    joinParams (pairsOf tokens) = pyJoin ", " (tokens.filter hasEq) := by
  apply String.ext
  rw [joinParams_data]
  unfold pairsOf pyJoin
  rw [List.map_map]
  show _ = (String.mk (joinL (", " : String).data ((tokens.filter hasEq).map String.data))).data
  rw [show (", " : String).data = sepCS from rfl]
  show joinL sepCS _ = joinL sepCS _
  congr 1
  apply List.map_congr_left
  intro t ht
  show (eqKey t).data ++ '=' :: (eqVal t).data = t.data
  have hin : '=' ∈ t.data := List.elem_iff.mp (List.mem_filter.mp ht).2
  exact eq_rejoin t.data hin

theorem joinL_length (sep : List Char) :
    ∀ (l : List (List Char)), l ≠ [] →
      (joinL sep l).length = (l.map List.length).sum + sep.length * (l.length - 1) := by
  intro l
  induction l with
  | nil => intro h; exact absurd rfl h
  | cons x ys ih =>
    intro _
    cases ys with
    | nil => simp [joinL]
    | cons y ts =>
      rw [joinL_cons (by simp), List.length_append, List.length_append, ih (by simp)]
      simp only [List.map_cons, List.sum_cons, List.length_cons, Nat.add_sub_cancel]
      rw [Nat.mul_add, Nat.mul_one]
      omega

/-- Parsing the re-serialization of a parse gives back the parse: the
output of `parseParamStr` has pairwise distinct keys, keys free of `'='`,
and keys and values free of `", "`, so its `"k=v, k=v"` join splits back
into exactly its `"k=v"` pieces. -/
theorem parseParamStr_joinParams_parse (s : String) :
    parseParamStr (joinParams (parseParamStr s)) = parseParamStr s := by
  by_cases hpc : parseParamStr s = []
  · rw [hpc]
    decide
  · have hshape := parseParamStr_pair_shape s
    have hnd := parseParamStr_keys_nodup s
    set pc := parseParamStr s with hpcdef
    set tokens := pc.map (fun kv : String × String => kv.1.data ++ '=' :: kv.2.data) with htokens
    have htokne : tokens ≠ [] := by
      rw [htokens]
      simpa using hpc
    have htokno : ∀ t ∈ tokens, noOccur sepCS t := by
      intro t ht
      rw [htokens] at ht
      obtain ⟨kv, hkv, hteq⟩ := List.mem_map.mp ht
      rw [← hteq]
      exact noOccur_append_eqmid (hshape kv hkv).1.1 (hshape kv hkv).2
    have hsplit : splitCS (joinParams pc).data = tokens := by
      rw [joinParams_data, ← htokens]
      exact splitCS_joinL tokens htokne htokno
    have hJne : joinParams pc ≠ "" := by
      intro h
      have hdata : joinL sepCS tokens = [] := by
        have h2 : (joinParams pc).data = [] := by rw [h]
        rw [joinParams_data, ← htokens] at h2
        exact h2
      cases htok : tokens with
      | nil => exact htokne htok
      | cons x ys =>
        have hxmem : x ∈ tokens := by rw [htok]; simp
        rw [htokens] at hxmem
        obtain ⟨kv, _, hxeq⟩ := List.mem_map.mp hxmem
        have hxne : x ≠ [] := by rw [← hxeq]; simp
        rw [htok] at hdata
        cases ys with
        | nil => exact hxne (by simpa [joinL] using hdata)
        | cons y ts =>
          rw [joinL_cons (by simp)] at hdata
          simp [sepCS] at hdata
    -- parse of the join
    unfold parseParamStr
    rw [if_neg hJne]
    have hsplitJ : pySplit (joinParams pc) ", " = tokens.map String.mk := by
      rw [pySplit_eq_splitCS, hsplit]
    rw [hsplitJ]
    have hpairs : pairsOf (tokens.map String.mk) = pc := by
      unfold pairsOf
      have hfil : (tokens.map String.mk).filter hasEq = tokens.map String.mk := by
        apply List.filter_eq_self.mpr
        intro t ht
        obtain ⟨td, htd, hteq⟩ := List.mem_map.mp ht
        rw [htokens] at htd
        obtain ⟨kv, _, htdeq⟩ := List.mem_map.mp htd
        rw [← hteq]
        show (String.mk td).data.contains '=' = true
        refine List.elem_iff.mpr ?_
        show '=' ∈ td
        rw [← htdeq]
        simp
      rw [hfil, List.map_map, htokens, List.map_map]
      have hpoint : ∀ kv ∈ pc,
          ((fun t => (eqKey t, eqVal t)) ∘ (String.mk ∘ fun kv : String × String => kv.1.data ++ '=' :: kv.2.data)) kv = kv := by
        intro kv hkv
        have hkey : ∀ x ∈ kv.1.data, (fun c => c != '=') x = true := by
          intro x hx
          simpa using (hshape kv hkv).1.2 x hx
        have htw := takeWhile_all_append (fun c => c != '=') '='
          kv.1.data kv.2.data hkey (by simp)
        show (eqKey (String.mk (kv.1.data ++ '=' :: kv.2.data)),
              eqVal (String.mk (kv.1.data ++ '=' :: kv.2.data))) = kv
        unfold eqKey eqVal
        show (String.mk ((kv.1.data ++ '=' :: kv.2.data).takeWhile _),
              String.mk ((kv.1.data ++ '=' :: kv.2.data).dropWhile _).tail) = kv
        rw [htw.1, htw.2]
        rfl
      calc pc.map ((fun t => (eqKey t, eqVal t)) ∘ (String.mk ∘ fun kv : String × String => kv.1.data ++ '=' :: kv.2.data))
          = pc.map id := List.map_congr_left hpoint
        _ = pc := List.map_id pc
    have hndpairs : ((pairsOf (tokens.map String.mk)).map Prod.fst).Nodup := by
      rw [hpairs]
      exact hnd
    rw [foldl_paramStep_append (tokens.map String.mk) [] hndpairs (by simp), hpairs]
    simp

theorem sum_map_filter_le {α : Type} (p : α → Bool) (f : α → Nat) :
    ∀ (l : List α), ((l.filter p).map f).sum ≤ (l.map f).sum := by
  intro l
  induction l with
  | nil => simp
  | cons x xs ih =>
    rw [List.filter_cons]
    split
    · simpa using ih
    · simp only [List.map_cons, List.sum_cons]
      omega

theorem map_data_filter_hasEq :
    ∀ (ts : List (List Char)),
      ((ts.map String.mk).filter hasEq).map String.data
        = ts.filter (fun l => l.contains '=') := by
  intro ts
  induction ts with
  | nil => rfl
  | cons x xs ih =>
    simp only [List.map_cons, List.filter_cons]
    by_cases hx : (String.mk x).data.contains '=' = true
    · have hx' : x.contains '=' = true := hx
      rw [show hasEq (String.mk x) = true from hx, hx']
      simp only [if_true, List.map_cons]
      rw [ih]
    · have hx' : ¬ (x.contains '=' = true) := hx
      rw [show hasEq (String.mk x) = false from Bool.eq_false_iff.mpr hx,
        show x.contains '=' = false from Bool.eq_false_iff.mpr hx']
      simpa using ih

/-- If some token of the raw parameter string lacks a `"="`, the join of
the kept tokens is strictly shorter than the raw string, hence differs
from it (the raw string being nonempty). -/
theorem pruned_ne (s : String) (hs : s ≠ "")
    (hbad : ∃ t ∈ pySplit s ", ", hasEq t = false) :
    pyJoin ", " ((pySplit s ", ").filter hasEq) ≠ s := by
  intro heq
  have hdata : joinL sepCS (((pySplit s ", ").filter hasEq).map String.data) = s.data := by
    have := congrArg String.data heq
    exact this
  rw [pySplit_eq_splitCS, map_data_filter_hasEq] at hdata
  set tokensD := splitCS s.data with htokd
  have hsrc : joinL sepCS tokensD = s.data := by
    show joinL sepCS (strSplitFuel sepCS s.data.length s.data []) = s.data
    rw [joinL_strSplitFuel]
    simp
  have hne : tokensD ≠ [] := strSplitFuel_ne_nil sepCS s.data.length s.data []
  have hflt : (tokensD.filter (fun l => l.contains '=')).length < tokensD.length := by
    obtain ⟨t, ht, hfe⟩ := hbad
    rw [pySplit_eq_splitCS] at ht
    obtain ⟨td, htd, hteq⟩ := List.mem_map.mp ht
    refine List.length_filter_lt_length_iff_exists.mpr ⟨td, htd, ?_⟩
    have : hasEq (String.mk td) = false := by rw [hteq, hfe]
    simpa [hasEq] using this
  have hsdne : s.data ≠ [] := by
    intro h
    exact hs (String.ext h)
  cases hkept : tokensD.filter (fun l => l.contains '=') with
  | nil =>
    rw [hkept] at hdata
    exact hsdne (hdata.symm ▸ rfl)
  | cons k ks =>
    have hkeptne : tokensD.filter (fun l => l.contains '=') ≠ [] := by rw [hkept]; simp
    have hlen1 := joinL_length sepCS _ hkeptne
    have hlen2 := joinL_length sepCS _ hne
    rw [hdata] at hlen1
    rw [hsrc] at hlen2
    have hsum := sum_map_filter_le (fun l : List Char => l.contains '=') List.length tokensD
    have hm1 : 1 ≤ (tokensD.filter (fun l => l.contains '=')).length := by
      rw [hkept]; simp
    have hsep2 : sepCS.length = 2 := rfl
    rw [hsep2] at hlen1 hlen2
    omega

/-- Baseline document for claim C1: a matched entry whose P95 is 0. -/
def c1Baseline : List Benchmark := [⟨some "Search", some "N=100", some 0⟩]

/-- Current document for claim C1. -/
def c1Current : List Benchmark := [⟨some "Search", some "N=100", some 54⟩]

/-- Claim C1 (code bug): on a matched pair with both P95 values present
and baseline P95 = 0, line 121 divides by zero, so the comparison pass
aborts with an uncaught ZeroDivisionError; the entry is NOT surfaced as
MissingData and the pass does NOT continue, contrary to the claim. -/
theorem c1_zero_baseline_aborts :
    runComparison c1Baseline c1Current 10 = Except.error PyErr.zeroDivisionError := rfl

/-- Claim C2 (confirmed): for thresholds t ≥ 0 and a matched current entry
with both P95 values present and baseline P95 > 0, the classification is
Regression iff change_pct > t, Improvement iff change_pct < -t, Unchanged
otherwise; exact ties at t or -t give Unchanged. -/
theorem c2_threshold_classification
    (baseline : List Benchmark) (b be : Benchmark) (t bp cp : ℚ)
    (ht : 0 ≤ t)
    (hfind : find_baseline baseline (b.method.getD "Unknown") (extract_params b) = some be)
    (hbe : get_p95 be = some bp) (hb : get_p95 b = some cp) (hbp : 0 < bp) :
    (processEntry baseline t b
        = Except.ok (Outcome.regression (paramKey b) bp cp ((cp - bp) / bp * 100))
      ↔ (cp - bp) / bp * 100 > t)
    ∧ (processEntry baseline t b
        = Except.ok (Outcome.improvement (paramKey b) bp cp ((cp - bp) / bp * 100))
      ↔ (cp - bp) / bp * 100 < -t)
    ∧ (processEntry baseline t b
        = Except.ok (Outcome.unchanged (paramKey b) bp cp ((cp - bp) / bp * 100))
      ↔ (¬ ((cp - bp) / bp * 100 > t) ∧ ¬ ((cp - bp) / bp * 100 < -t)))
    ∧ ((cp - bp) / bp * 100 = t →
        processEntry baseline t b
          = Except.ok (Outcome.unchanged (paramKey b) bp cp ((cp - bp) / bp * 100)))
    ∧ ((cp - bp) / bp * 100 = -t →
        processEntry baseline t b
          = Except.ok (Outcome.unchanged (paramKey b) bp cp ((cp - bp) / bp * 100))) := by
  have hbp0 : ¬ bp = 0 := ne_of_gt hbp
  have hkey : processEntry baseline t b =
      if (cp - bp) / bp * 100 > t then
        Except.ok (Outcome.regression (paramKey b) bp cp ((cp - bp) / bp * 100))
      else if (cp - bp) / bp * 100 < -t then
        Except.ok (Outcome.improvement (paramKey b) bp cp ((cp - bp) / bp * 100))
      else
        Except.ok (Outcome.unchanged (paramKey b) bp cp ((cp - bp) / bp * 100)) := by
    simp only [processEntry, hfind, hbe, hb]
    rw [if_neg hbp0]
  rw [hkey]
  by_cases h1 : (cp - bp) / bp * 100 > t
  · rw [if_pos h1]
    have hn2 : ¬ ((cp - bp) / bp * 100 < -t) := by intro h2; linarith
    refine ⟨⟨fun _ => h1, fun _ => rfl⟩, ?_, ?_, ?_, ?_⟩
    · exact ⟨fun heq => absurd heq (by simp), fun h2 => absurd h2 hn2⟩
    · exact ⟨fun heq => absurd heq (by simp), fun hc => absurd h1 hc.1⟩
    · intro hteq
      exact absurd (hteq ▸ h1) (lt_irrefl t)
    · intro hteq
      rw [hteq] at h1
      exact absurd h1 (by intro hh; linarith)
  · rw [if_neg h1]
    by_cases h2 : (cp - bp) / bp * 100 < -t
    · rw [if_pos h2]
      refine ⟨?_, ⟨fun _ => h2, fun _ => rfl⟩, ?_, ?_, ?_⟩
      · exact ⟨fun heq => absurd heq (by simp), fun hh => absurd hh h1⟩
      · exact ⟨fun heq => absurd heq (by simp), fun hc => absurd h2 hc.2⟩
      · intro hteq
        rw [hteq] at h2
        exact absurd h2 (by intro hh; linarith)
      · intro hteq
        exact absurd (hteq ▸ h2) (lt_irrefl (-t))
    · rw [if_neg h2]
      refine ⟨?_, ?_, ⟨fun _ => ⟨h1, h2⟩, fun _ => rfl⟩, fun _ => rfl, fun _ => rfl⟩
      · exact ⟨fun heq => absurd heq (by simp), fun hh => absurd hh h1⟩
      · exact ⟨fun heq => absurd heq (by simp), fun hh => absurd hh h2⟩

/-- Baseline document for the C2 witness. -/
def c2Baseline : List Benchmark := [⟨some "Search", some "N=100", some 50⟩]

/-- Matched baseline entry of the C2 witness. -/
def c2Entry : Benchmark := ⟨some "Search", some "N=100", some 50⟩

/-- Current entry for the C2 witness: change_pct = 8, threshold 10. -/
def c2Current : Benchmark := ⟨some "Search", some "N=100", some 54⟩

/-- Witness for C2 at threshold 10, baseline P95 = 50, current P95 = 54. -/
theorem c2_threshold_classification_witness :
    (0:ℚ) ≤ 10
    ∧ find_baseline c2Baseline (c2Current.method.getD "Unknown") (extract_params c2Current)
        = some c2Entry
    ∧ (processEntry c2Baseline 10 c2Current
        = Except.ok (Outcome.unchanged (paramKey c2Current) 50 54 (((54:ℚ) - 50) / 50 * 100))
      ↔ (¬ (((54:ℚ) - 50) / 50 * 100 > 10) ∧ ¬ (((54:ℚ) - 50) / 50 * 100 < -10))) :=
  ⟨by norm_num, by decide,
    (c2_threshold_classification c2Baseline c2Current c2Entry 10 50 54
      (by norm_num) (by decide) rfl rfl (by decide)).2.2.1⟩

/-- Baseline document of the C3 counterexample (a matched entry with
P95 = 0, so the pass crashes). -/
def c3CrashBaseline : List Benchmark := [⟨some "Load", some "K=1", some 0⟩]

/-- Current document of the C3 counterexample. -/
def c3CrashCurrent : List Benchmark := [⟨some "Load", some "K=1", some 3⟩]

/-- Claim C3 counterexample: both documents parse successfully and no
entry is ever classified Regression (the pass aborts with an uncaught
ZeroDivisionError before classifying anything), yet the process exit
status is 1 — refuting "exit status is 0 iff the regression count is 0". -/
theorem c3_exit_status_counterexample :
    runComparison c3CrashBaseline c3CrashCurrent 10 = Except.error PyErr.zeroDivisionError
    ∧ processExit c3CrashBaseline c3CrashCurrent 10 = 1 := ⟨rfl, rfl⟩

/-- Claim C3 (amended): given both inputs parse successfully AND the
comparison pass completes without an uncaught exception, the exit status
is 1 iff at least one entry is classified Regression and 0 iff none is,
regardless of Improvement, NoBaseline, or MissingData outcomes. -/
theorem c3_exit_status (baseline current : List Benchmark) (t : ℚ) (outs : List Outcome)
    (h : runComparison baseline current t = Except.ok outs) :
    (processExit baseline current t = 1 ↔ outs.any Outcome.isRegression = true)
    ∧ (processExit baseline current t = 0 ↔ outs.any Outcome.isRegression = false) := by
  unfold processExit check_regressions
  rw [h]
  simp only [Except.map]
  unfold exitOfOutcomes
  by_cases ha : outs.any Outcome.isRegression
  · simp [ha]
  · simp [ha]

/-- Current document of the C3 witness: one entry with no baseline. -/
def c3WitnessCurrent : List Benchmark := [⟨some "Fetch", some "N=5", some 7⟩]

/-- Witness for C3: a completed run with no regression exits 0. -/
theorem c3_exit_status_witness :
    runComparison [] c3WitnessCurrent 10 = Except.ok [Outcome.noBaseline "Fetch(N=5)"]
    ∧ (processExit [] c3WitnessCurrent 10 = 0
      ↔ ([Outcome.noBaseline "Fetch(N=5)"].any Outcome.isRegression = false)) :=
  ⟨rfl, (c3_exit_status [] c3WitnessCurrent 10 [Outcome.noBaseline "Fetch(N=5)"] rfl).2⟩

/-- Claim C4 (confirmed): a baseline entry and a current entry with equal
names and semantically equal (permuted) parameter key/value sets but
different key order never match: the current entry gets NoBaseline.
Matching is exact-string, never an order-independent comparison. -/
theorem c4_param_order_no_match (e b : Benchmark) (name : String) (t : ℚ)
    (he : e.method = some name) (hb : b.method = some name)
    (hperm : List.Perm (parseParamStr (e.parameters.getD "")) (extract_params b))
    (hne : parseParamStr (e.parameters.getD "") ≠ extract_params b) :
    find_baseline [e] name (extract_params b) = none
    ∧ processEntry [e] t b = Except.ok (Outcome.noBaseline (paramKey b)) := by
  have hstr : e.parameters.getD "" ≠ joinParams (extract_params b) := by
    intro heq
    apply hne
    calc parseParamStr (e.parameters.getD "")
        = parseParamStr (joinParams (extract_params b)) := by rw [heq]
      _ = parseParamStr (b.parameters.getD "") := parseParamStr_joinParams_parse _
      _ = extract_params b := rfl
  have hfind : find_baseline [e] name (extract_params b) = none := by
    simp only [find_baseline]
    rw [if_neg (by simp [he]), if_neg hstr]
  refine ⟨hfind, ?_⟩
  simp only [processEntry, hb, Option.getD_some]
  rw [hfind]

/-- Baseline entry of the C4 witness: parameters "A=1, B=2". -/
def c4BaselineEntry : Benchmark := ⟨some "Sort", some "A=1, B=2", some 10⟩

/-- Current entry of the C4 witness: same pairs, order "B=2, A=1". -/
def c4Current : Benchmark := ⟨some "Sort", some "B=2, A=1", some 11⟩

/-- Witness for C4 on a concrete permuted pair. -/
theorem c4_param_order_no_match_witness :
    List.Perm (parseParamStr (c4BaselineEntry.parameters.getD "")) (extract_params c4Current)
    ∧ parseParamStr (c4BaselineEntry.parameters.getD "") ≠ extract_params c4Current
    ∧ find_baseline [c4BaselineEntry] "Sort" (extract_params c4Current) = none
    ∧ processEntry [c4BaselineEntry] 5 c4Current
        = Except.ok (Outcome.noBaseline (paramKey c4Current)) := by
  have h := c4_param_order_no_match c4BaselineEntry c4Current "Sort" 5 rfl rfl
    (by decide) (by decide)
  exact ⟨by decide, by decide, h.1, h.2⟩

/-- Claim C5 counterexample: the well-formed document `{}` lacks the
expected top-level "Benchmarks" list, yet the Loader succeeds and the
whole run completes normally with exit status 0 — no ParseError. -/
theorem c5_parse_error_counterexample :
    load_json (some (Json.obj [])) = Except.ok (Json.obj [])
    ∧ runFromDocs (some (Json.obj [])) (some (Json.obj [])) 10 = Except.ok 0 := ⟨rfl, rfl⟩

/-- Claim C5 (amended): the Loader fails with ParseError exactly when the
document text is not well-formed, and such a failure aborts the whole run
(whichever input it is); a well-formed document merely lacking the
"Benchmarks" field does not fail (see the counterexample). -/
theorem c5_parse_error :
    (∀ doc : Option Json, load_json doc = Except.error PyErr.parseError ↔ doc = none)
    ∧ (∀ (cdoc : Option Json) (t : ℚ), runFromDocs none cdoc t = Except.error PyErr.parseError)
    ∧ (∀ (bj : Json) (t : ℚ), runFromDocs (some bj) none t = Except.error PyErr.parseError) := by
  refine ⟨?_, fun cdoc t => rfl, fun bj t => rfl⟩
  intro doc
  cases doc with
  | none => simp [load_json]
  | some j => simp [load_json]

/-- Claim C6 (confirmed): a matched entry with P95 absent on either side
is classified MissingData; the pass does not abort and continues with the
remaining entries, and a MissingData outcome never changes the exit code. -/
theorem c6_missing_data (baseline : List Benchmark) (b be : Benchmark) (t : ℚ)
    (hfind : find_baseline baseline (b.method.getD "Unknown") (extract_params b) = some be)
    (hmiss : get_p95 be = none ∨ get_p95 b = none) :
    processEntry baseline t b = Except.ok (Outcome.missingData (paramKey b))
    ∧ (∀ rest, runComparison baseline (b :: rest) t
        = (runComparison baseline rest t).map
            (fun outs => Outcome.missingData (paramKey b) :: outs))
    ∧ (∀ (pre post : List Outcome) (k : String),
        exitOfOutcomes (pre ++ Outcome.missingData k :: post)
          = exitOfOutcomes (pre ++ post)) := by
  have hpe : processEntry baseline t b = Except.ok (Outcome.missingData (paramKey b)) := by
    simp only [processEntry, hfind]
    rcases hmiss with h | h
    · rw [h]
    · rw [h]
      cases hbe : get_p95 be <;> rfl
  refine ⟨hpe, ?_, ?_⟩
  · intro rest
    cases hrest : runComparison baseline rest t with
    | error err => simp [runComparison, hpe, hrest, Except.map]
    | ok outs => simp [runComparison, hpe, hrest, Except.map]
  · intro pre post k
    unfold exitOfOutcomes
    have hany : (pre ++ Outcome.missingData k :: post).any Outcome.isRegression
        = (pre ++ post).any Outcome.isRegression := by
      simp [List.any_append, Outcome.isRegression]
    rw [hany]

/-- Baseline document of the C6 witness: matched entry lacking P95. -/
def c6Baseline : List Benchmark := [⟨some "Scan", some "", none⟩]

/-- Matched baseline entry of the C6 witness. -/
def c6Entry : Benchmark := ⟨some "Scan", some "", none⟩

/-- Current entry of the C6 witness. -/
def c6Current : Benchmark := ⟨some "Scan", some "", some 4⟩

/-- Witness for C6 with the baseline P95 absent. -/
theorem c6_missing_data_witness :
    find_baseline c6Baseline (c6Current.method.getD "Unknown") (extract_params c6Current)
      = some c6Entry
    ∧ processEntry c6Baseline 10 c6Current
        = Except.ok (Outcome.missingData (paramKey c6Current)) :=
  ⟨by decide,
    (c6_missing_data c6Baseline c6Current c6Entry 10 (by decide) (Or.inl rfl)).1⟩

/-- Claim C7 (confirmed): the baseline scan is exactly a first-match
search in document order on (Method = name AND raw Parameters string =
re-joined current parameters); at most one entry is selected and later
duplicates are never considered. -/
theorem c7_first_match (data : List Benchmark) (name : String)
    (params : List (String × String)) :
    find_baseline data name params
      = data.find? (fun e =>
          (e.method == some name) && (e.parameters.getD "" == joinParams params)) := by
  induction data with
  | nil => rfl
  | cons e rest ih =>
    by_cases hm : e.method = some name
    · by_cases hp : e.parameters.getD "" = joinParams params
      · rw [List.find?_cons_of_pos _ (by simp [hm, hp])]
        simp only [find_baseline]
        rw [if_neg (by simp [hm]), if_pos hp]
      · rw [List.find?_cons_of_neg _ (by simp [hm, hp])]
        simp only [find_baseline]
        rw [if_neg (by simp [hm]), if_neg hp]
        exact ih
    · rw [List.find?_cons_of_neg _ (by simp [hm])]
      simp only [find_baseline]
      rw [if_pos (by simp [hm])]
      exact ih

/-- Claim C8 (confirmed): for a matched entry with both P95 values present
and baseline P95 nonzero, the outcome carries exactly
change_pct = (current_p95 - baseline_p95) / baseline_p95 * 100. -/
theorem c8_change_pct (baseline : List Benchmark) (b be : Benchmark) (t bp cp : ℚ)
    (hfind : find_baseline baseline (b.method.getD "Unknown") (extract_params b) = some be)
    (hbe : get_p95 be = some bp) (hb : get_p95 b = some cp) (hbp : bp ≠ 0) :
    ∃ o, processEntry baseline t b = Except.ok o
      ∧ o.changePct = some ((cp - bp) / bp * 100) := by
  simp only [processEntry, hfind, hbe, hb]
  rw [if_neg hbp]
  by_cases h1 : (cp - bp) / bp * 100 > t
  · refine ⟨Outcome.regression (paramKey b) bp cp ((cp - bp) / bp * 100), ?_, rfl⟩
    rw [if_pos h1]
  · by_cases h2 : (cp - bp) / bp * 100 < -t
    · refine ⟨Outcome.improvement (paramKey b) bp cp ((cp - bp) / bp * 100), ?_, rfl⟩
      rw [if_neg h1, if_pos h2]
    · refine ⟨Outcome.unchanged (paramKey b) bp cp ((cp - bp) / bp * 100), ?_, rfl⟩
      rw [if_neg h1, if_neg h2]

/-- Baseline document of the C8 witness. -/
def c8Baseline : List Benchmark := [⟨some "Query", some "Q=7", some 40⟩]

/-- Matched baseline entry of the C8 witness. -/
def c8Entry : Benchmark := ⟨some "Query", some "Q=7", some 40⟩

/-- Current entry of the C8 witness. -/
def c8Current : Benchmark := ⟨some "Query", some "Q=7", some 41⟩

/-- Witness for C8 at baseline P95 = 40, current P95 = 41. -/
theorem c8_change_pct_witness :
    find_baseline c8Baseline (c8Current.method.getD "Unknown") (extract_params c8Current)
      = some c8Entry
    ∧ (40:ℚ) ≠ 0
    ∧ ∃ o, processEntry c8Baseline 10 c8Current = Except.ok o
        ∧ o.changePct = some (((41:ℚ) - 40) / 40 * 100) :=
  ⟨by decide, by decide,
    c8_change_pct c8Baseline c8Current c8Entry 10 40 41 (by decide) rfl rfl (by decide)⟩

/-- Claim C9 (confirmed): the key/value map built by the comprehension
inside `find_baseline` is dead logic: the function returns the same result
as the variant that omits it and only compares the raw baseline Parameters
string with the re-joined current parameter string. -/
theorem c9_dead_param_map (data : List Benchmark) (name : String)
    (params : List (String × String)) :
    find_baseline data name params = find_baseline_simple data name params := by
  induction data with
  | nil => rfl
  | cons e rest ih =>
    simp only [find_baseline, find_baseline_simple]
    by_cases hm : e.method ≠ some name
    · rw [if_pos hm, if_pos hm]
      exact ih
    · rw [if_neg hm, if_neg hm]
      by_cases hp : e.parameters.getD "" = joinParams params
      · rw [if_pos hp, if_pos hp]
      · rw [if_neg hp, if_neg hp]
        exact ih

/-- Baseline entry of the C10 counterexample: raw Parameters "". -/
def c10BaselineEntry : Benchmark := ⟨some "Run", some "", some 1⟩

/-- Current entry of the C10 counterexample: raw Parameters "". -/
def c10Current : Benchmark := ⟨some "Run", some "", some 2⟩

/-- Claim C10 counterexample: for the empty Parameters string the single
token "" lacks "=", yet a baseline entry with byte-identical raw
Parameters DOES match (re-serialization of the empty string is itself),
refuting the claim's "does not match" for this input. -/
theorem c10_counterexample :
    (∃ t ∈ pySplit (c10Current.parameters.getD "") ", ", hasEq t = false)
    ∧ c10BaselineEntry.parameters.getD "" = c10Current.parameters.getD ""
    ∧ find_baseline [c10BaselineEntry] "Run" (extract_params c10Current)
        = some c10BaselineEntry :=
  ⟨⟨"", by decide, by decide⟩, by decide, by decide⟩

/-- Claim C10 (amended): (i) for a current Parameters string whose tokens
all contain "=" and whose keys are pairwise distinct, re-serialization is
the identity, so matching reduces to byte equality of the raw strings;
(ii) for a NONEMPTY Parameters string with some token lacking "=" (kept
keys pairwise distinct), the token is dropped, re-serialization yields the
pruned form, which differs from the raw string, so a byte-identical
baseline does not match while one whose raw string equals the pruned form
does. -/
theorem c10_reserialization :
    (∀ (s : String),
      (∀ t ∈ pySplit s ", ", hasEq t = true) →
      ((pairsOf (pySplit s ", ")).map Prod.fst).Nodup →
      joinParams (parseParamStr s) = s
      ∧ ∀ (e : Benchmark) (name : String), e.method = some name →
          (find_baseline [e] name (parseParamStr s) = some e
            ↔ e.parameters.getD "" = s))
    ∧ (∀ (s : String), s ≠ "" →
      (∃ t ∈ pySplit s ", ", hasEq t = false) →
      ((pairsOf (pySplit s ", ")).map Prod.fst).Nodup →
      joinParams (parseParamStr s) = pyJoin ", " ((pySplit s ", ").filter hasEq)
      ∧ joinParams (parseParamStr s) ≠ s
      ∧ (∀ (e : Benchmark) (name : String), e.method = some name →
          e.parameters = some s →
          find_baseline [e] name (parseParamStr s) = none)
      ∧ (∀ (e : Benchmark) (name : String), e.method = some name →
          e.parameters = some (pyJoin ", " ((pySplit s ", ").filter hasEq)) →
          find_baseline [e] name (parseParamStr s) = some e)) := by
  constructor
  · intro s hall hnd
    have hid := joinParams_parseParamStr_id s hall hnd
    refine ⟨hid, ?_⟩
    intro e name he
    simp only [find_baseline]
    rw [if_neg (by simp [he]), hid]
    by_cases hp : e.parameters.getD "" = s
    · rw [if_pos hp]
      simp [hp]
    · rw [if_neg hp]
      simp [hp]
  · intro s hs hbad hnd
    have hprune : parseParamStr s = pairsOf (pySplit s ", ") :=
      parseParamStr_eq_pairsOf hs hnd
    have ha : joinParams (parseParamStr s) = pyJoin ", " ((pySplit s ", ").filter hasEq) := by
      rw [hprune]
      exact joinParams_pairsOf _
    have hb : joinParams (parseParamStr s) ≠ s := by
      rw [ha]
      exact pruned_ne s hs hbad
    refine ⟨ha, hb, ?_, ?_⟩
    · intro e name he hraw
      simp only [find_baseline]
      rw [if_neg (by simp [he]),
        if_neg (by rw [hraw]; simpa using fun hh => hb hh.symm)]
    · intro e name he hraw
      simp only [find_baseline]
      rw [if_neg (by simp [he]), if_pos (by rw [hraw, ha]; rfl)]

/-- Baseline entry of the C10 witness for part (ii): raw Parameters equal
to the current entry's raw string "N=1, x" (must not match). -/
def c10wBaseline : Benchmark := ⟨some "Run", some "N=1, x", some 1⟩

/-- Witness for C10: part (i) at "A=1, B=2" and part (ii) at "N=1, x". -/
theorem c10_reserialization_witness :
    ((∀ t ∈ pySplit "A=1, B=2" ", ", hasEq t = true)
      ∧ joinParams (parseParamStr "A=1, B=2") = "A=1, B=2")
    ∧ (("N=1, x" : String) ≠ ""
      ∧ joinParams (parseParamStr "N=1, x") ≠ "N=1, x"
      ∧ find_baseline [c10wBaseline] "Run" (parseParamStr "N=1, x") = none) := by
  have h1 := c10_reserialization.1 "A=1, B=2" (by decide) (by decide)
  have h2 := c10_reserialization.2 "N=1, x" (by decide) ⟨"x", by decide, by decide⟩ (by decide)
  exact ⟨⟨by decide, h1.1⟩, by decide, h2.2.1, h2.2.2.1 c10wBaseline "Run" rfl rfl⟩

end PerfCheck
